import Mathlib

/-!
Verification of the Recortes repository: a shallow embedding of its two
pipelines — the document pagination engine (`procesa_enumeracion.py`) and
the coordinate-based crop extraction pipeline (`procesa_recortes.py`) —
together with theorems settling the spec's claims about them.
-/

set_option maxRecDepth 4000

/-! ## Pagination engine (`procesa_enumeracion.py`)

`get_file_groups` reads `Codificacion` rows ordered by `Ruta`, groups them by
the directory component of the path (a `defaultdict`, so group keys keep
first-appearance order) and sorts each group's files by path; `update_records`
walks the groups assigning page numbers, exam codes and prefixes.
-/

/-- One `Codificacion` row as loaded by `get_file_groups`:
`Id`, `Ruta`, `BarcodeC39` (nullable). -/
structure FileRec where
  id : Nat
  ruta : String
  barcode : Option String
deriving DecidableEq, Repr

/-- Python truthiness of a nullable string: `None` and `""` are falsy.
Models `bool(row.BarcodeC39)` (the `has_barcode` flag). -/
def truthyStr : Option String → Bool
  | none => false
  | some s => !(s == "")

/-- `has_barcode` of a file: `bool(row.BarcodeC39)`. -/
def fileHasBarcode (f : FileRec) : Bool := truthyStr f.barcode

/-- Models `x if x else None` on a nullable string
(`codigo_examen = current_barcode if current_barcode else None`). -/
def optTruthy : Option String → Option String
  | none => none
  | some s => if s == "" then none else some s

/-- Models `codigo_examen[:3] if codigo_examen else None`. -/
def prefixOf : Option String → Option String
  | none => none
  | some s => if s == "" then none else some (s.take 3)

/-- One element of the `updates` batch of `update_records`:
`(NumeroPagina, CodigoExamen, Prefijo, Id)`. -/
structure UpdateTuple where
  numeroPagina : Nat
  codigoExamen : Option String
  prefijo : Option String
  id : Nat
deriving DecidableEq, Repr

/-- The run-wide mutable state of `update_records`: the accumulated `updates`
list, `total_documents`, and `current_barcode`. -/
structure PagState where
  updates : List UpdateTuple
  totalDocuments : Nat
  currentBarcode : Option String
deriving Repr

/-- The inner `for file in files` loop of `update_records`: threads the
run-wide state and the per-group `current_page` counter through one group's
files. -/
def processFiles (st : PagState) (page : Nat) : List FileRec → PagState
  | [] => st
  | f :: fs =>
    let st1 : PagState :=
      if fileHasBarcode f then
        { st with currentBarcode := f.barcode, totalDocuments := st.totalDocuments + 1 }
      else st
    let p : Nat := if fileHasBarcode f then 1 else page
    let ce : Option String := optTruthy st1.currentBarcode
    let tup : UpdateTuple := ⟨p, ce, prefixOf ce, f.id⟩
    processFiles { st1 with updates := st1.updates ++ [tup] } (p + 1) fs

/-- The outer `for directory, files in groups.items()` loop of
`update_records`: `current_page` is reset to `1` at the start of each group,
while `updates`, `total_documents` and `current_barcode` persist. -/
def processGroups (st : PagState) : List (String × List FileRec) → PagState
  | [] => st
  | g :: gs => processGroups (processFiles st 1 g.2) gs

/-- `update_records` (success path): builds the batch of update tuples and
returns `(len(updates), total_documents)` alongside the tuples themselves. -/
def update_records (groups : List (String × List FileRec)) : List UpdateTuple × Nat :=
  let fin := processGroups { updates := [], totalDocuments := 0, currentBarcode := none } groups
  (fin.updates, fin.totalDocuments)

/-- `update_records` with the outcome of `cursor.executemany`/`commit` made
explicit: on a write failure the transaction is rolled back (no tuple is
committed) and the function returns `(0, 0)`; on success all tuples are
committed and it returns `(len(updates), total_documents)`.  The first
component is the list of rows committed to the store. -/
def update_records_run (groups : List (String × List FileRec)) (writeOk : Bool) :
    List UpdateTuple × Nat × Nat :=
  let r := update_records groups
  if writeOk then (r.1, r.1.length, r.2) else ([], 0, 0)

/-! Spec-side reference functions used to state properties of the engine. -/

/-- All files of a groups structure, in iteration order. -/
def flatFiles (groups : List (String × List FileRec)) : List FileRec :=
  groups.flatMap (fun g => g.2)

/-- The tuples the inner loop appends for one group's files, given the
incoming `current_barcode` and `current_page`. -/
def tuplesAux (cb : Option String) (page : Nat) : List FileRec → List UpdateTuple
  | [] => []
  | f :: fs =>
    let cb1 := if fileHasBarcode f then f.barcode else cb
    let p := if fileHasBarcode f then 1 else page
    let ce := optTruthy cb1
    ⟨p, ce, prefixOf ce, f.id⟩ :: tuplesAux cb1 (p + 1) fs

/-- The value of `current_barcode` after scanning a list of files. -/
def lastBarcodeList (cb : Option String) (files : List FileRec) : Option String :=
  files.foldl (fun acc f => if fileHasBarcode f then f.barcode else acc) cb

/-- The tuples produced across a list of groups, given the incoming
`current_barcode`. -/
def tuplesOfGroups (cb : Option String) : List (String × List FileRec) → List UpdateTuple
  | [] => []
  | g :: gs => tuplesAux cb 1 g.2 ++ tuplesOfGroups (lastBarcodeList cb g.2) gs

/-- The page numbers the inner loop assigns to a list of files, given the
incoming `current_page`. -/
def pagesAux (page : Nat) : List FileRec → List Nat
  | [] => []
  | f :: fs =>
    let p := if fileHasBarcode f then 1 else page
    p :: pagesAux (p + 1) fs

/-- The most recently seen barcode at or before position `i` of a file list:
the first file with a (truthy) barcode in the reversed prefix of length
`i + 1`. -/
def lastSeenBarcode (files : List FileRec) (i : Nat) : Option String :=
  (((files.take (i + 1)).reverse.find? (fun f => fileHasBarcode f))).bind (fun f => f.barcode)

/-- Path separators recognised on the platform the scripts run on. -/
def isSep (c : Char) : Bool := c == '\\' || c == '/'

/-- Models `os.path.dirname` for the stored scan paths: everything before the
last path separator, empty when the path has no separator. -/
def dirName (s : String) : String :=
  match s.data.reverse.dropWhile (fun c => !(isSep c)) with
  | [] => ""
  | _ :: rest => String.mk rest.reverse

/-- Stable ordered insertion: `a` is placed before the first element `b` with
`le a b`, so elements inserted earlier keep their relative position among
equals. -/
def insertOrd {α : Type} (le : α → α → Bool) (a : α) : List α → List α
  | [] => [a]
  | b :: l => if le a b then a :: b :: l else b :: insertOrd le a l

/-- Stable insertion sort; models Python's stable `list.sort(key=...)`. -/
def insertionSort {α : Type} (le : α → α → Bool) : List α → List α
  | [] => []
  | a :: l => insertOrd le a (insertionSort le l)

/-- One `groups[directory].append(...)` step on a `defaultdict(list)` viewed
as an association list: appending to an existing key keeps its position, a
new key is appended at the end (Python dicts preserve insertion order). -/
def insertGroup : List (String × List FileRec) → String → FileRec → List (String × List FileRec)
  | [], d, f => [(d, [f])]
  | g :: gs, d, f =>
    if g.1 == d then (g.1, g.2 ++ [f]) :: gs
    else g :: insertGroup gs d f

/-- `get_file_groups`: group the path-ordered rows by the directory component
of `Ruta` (insertion order preserved) and sort each group's files by `ruta`. -/
def get_file_groups (rows : List FileRec) : List (String × List FileRec) :=
  let gs := rows.foldl (fun gs r => insertGroup gs (dirName r.ruta) r) []
  gs.map (fun g => (g.1, insertionSort (fun a b => decide (a.ruta ≤ b.ruta)) g.2))

/-- The whole pagination computation on a fixed row stream: grouping followed
by `update_records`. -/
def runPagination (rows : List FileRec) : List UpdateTuple × Nat :=
  update_records (get_file_groups rows)

/-- Left fold describing how group keys accumulate: a key already present is
kept in place, a new key is appended. -/
def keysFold (ks : List String) : List String → List String
  | [] => ks
  | d :: ds => keysFold (if d ∈ ks then ks else ks ++ [d]) ds

/-- Spec-side description of insertion order: the directories in order of
first appearance in the row stream. -/
def firstAppearance : List String → List String
  | [] => []
  | d :: ds => d :: (firstAppearance ds).filter (fun x => !(x == d))

/-! ## Crop extraction pipeline (`procesa_recortes.py`)

Field geometry is stored in inches (floats); the decisive computations of the
claims — `int(...)` truncation, DPI scaling, array slicing, encoder
parameters, and the pending-row join — are embedded below.  Rational numbers
stand for the float values; every concrete input used in a theorem is exactly
representable in binary floating point, so the rational computation agrees
with the float one there. -/

/-- Python `int(...)` on a real value: truncation toward zero. -/
def pyInt (q : ℚ) : Int := if 0 ≤ q then ⌊q⌋ else -⌊-q⌋

/-- `RecortesProcessor.inches_to_pixels`: converts inches to pixels.  For a
dimension it returns `int(inches * dpi)`; for a coordinate it first subtracts
half the width (X) or half the height (Y) — the Python raises `ValueError`
when a coordinate conversion is requested with neither dimension supplied. -/
def inches_to_pixels (inches : ℚ) (width height : Option ℚ)
    (is_coordinate : Bool) (dpi : Int) : Except String Int :=
  if is_coordinate then
    match width with
    | some w => .ok (pyInt ((inches - w / 2) * dpi))
    | none =>
      match height with
      | some h => .ok (pyInt ((inches - h / 2) * dpi))
      | none => .error "Se requiere width o height para convertir coordenadas"
  else .ok (pyInt (inches * dpi))

/-- One crop job as produced by `get_records_to_process` (the selected
columns of the three-way join). -/
structure CropRecord where
  prefijo : Option String
  cod_barra : String
  nombreArchivo : String
  numeroPagina : Nat
  fieldId : Nat
  operativo : String
  area : String
  codItem : String
  ruta : String
  cordX : ℚ
  cordY : ℚ
  cordWidth : ℚ
  cordHeight : ℚ
  codificacionId : Nat
deriving DecidableEq, Repr

/-- The geometry-conversion step of `process_image` (lines 295–300): width and
height as dimensions, x and y as centre coordinates, each axis with its own
DPI. Returns `(width, height, x, y)` in pixels. -/
def convertGeometry (r : CropRecord) (dpiX dpiY : Int) : Except String (Int × Int × Int × Int) := do
  let width ← inches_to_pixels r.cordWidth none none false dpiX
  let height ← inches_to_pixels r.cordHeight none none false dpiY
  let x ← inches_to_pixels r.cordX (some r.cordWidth) none true dpiX
  let y ← inches_to_pixels r.cordY none (some r.cordHeight) true dpiY
  pure (width, height, x, y)

/-- Spec-level geometry conversion, following the spec's words: every
conversion uses `round` instead of truncation. Returns
`(pixelWidth, pixelHeight, pixelX, pixelY)`. -/
def roundGeometry (r : CropRecord) (dpiX dpiY : Int) : Int × Int × Int × Int :=
  (round (r.cordWidth * dpiX), round (r.cordHeight * dpiY),
   round ((r.cordX - r.cordWidth / 2) * dpiX),
   round ((r.cordY - r.cordHeight / 2) * dpiY))

/-- Normalisation of one Python slice endpoint for an axis of length `n`:
negative indices wrap around the end, and both ends clamp into `[0, n]`. -/
def pySliceIdx (n i : Int) : Int := if i < 0 then max (n + i) 0 else min i n

/-- Python/NumPy basic slicing `l[start:stop]` (step 1) on one axis. -/
def pySlice {α : Type} (l : List α) (start stop : Int) : List α :=
  let n : Int := l.length
  (l.take (pySliceIdx n stop).toNat).drop (pySliceIdx n start).toNat

/-- The crop step of `process_image`: `crop = img[y:y+height, x:x+width]` on
the decoded pixel buffer (rows of pixels). -/
def cropImage {α : Type} (img : List (List α)) (x y width height : Int) : List (List α) :=
  (pySlice img y (y + height)).map (fun row => pySlice row x (x + width))

/-- Spec-level crop, following the spec's words: the intersection of the
requested rectangle with the image bounds — rows `max y 0` up to
`min (y+height) nrows`, columns `max x 0` up to `min (x+width) ncols`. -/
def rectIntersect {α : Type} (img : List (List α)) (x y width height : Int) : List (List α) :=
  ((img.take (min (y + height) (img.length : Int)).toNat).drop (max y 0).toNat).map
    (fun row => (row.take (min (x + width) (row.length : Int)).toNat).drop (max x 0).toNat)

/-- OpenCV parameter key `cv2.IMWRITE_TIFF_RESUNIT`. -/
def IMWRITE_TIFF_RESUNIT : Nat := 256

/-- OpenCV parameter key `cv2.IMWRITE_TIFF_XDPI`. -/
def IMWRITE_TIFF_XDPI : Nat := 257

/-- OpenCV parameter key `cv2.IMWRITE_TIFF_YDPI`. -/
def IMWRITE_TIFF_YDPI : Nat := 258

/-- OpenCV parameter key `cv2.IMWRITE_TIFF_COMPRESSION`; its value is the
TIFF 6.0 `Compression` tag value. -/
def IMWRITE_TIFF_COMPRESSION : Nat := 259

/-- TIFF 6.0 `Compression` tag value for uncompressed data. -/
def TIFF_COMPRESSION_NONE : Int := 1

/-- TIFF 6.0 `Compression` tag value for LZW compression. -/
def TIFF_COMPRESSION_LZW : Int := 5

/-- TIFF 6.0 `ResolutionUnit` tag value for inches. -/
def TIFF_RESUNIT_INCH : Int := 2

/-- The parameter list `process_image` passes to the primary encoder
`cv2.imwrite` (lines 319–328), in source order. -/
def tiffWriteParams (dpiX dpiY : Int) : List (Nat × Int) :=
  [(IMWRITE_TIFF_COMPRESSION, 5),
   (IMWRITE_TIFF_RESUNIT, 2),
   (IMWRITE_TIFF_XDPI, dpiX),
   (IMWRITE_TIFF_YDPI, dpiY)]

/-- Value bound to a parameter key in an encoder parameter list. -/
def lookupParam (k : Nat) (ps : List (Nat × Int)) : Option Int :=
  (ps.find? (fun p => p.1 == k)).map (fun p => p.2)

/-- One `ListadoMuestraCodificacion` row (columns the crop pipeline reads and
writes); `rutaRecorte` is null until a crop has been produced. -/
structure ListadoRow where
  prefijo : Option String
  cod_barra : String
  nombreArchivo : String
  numeroPagina : Nat
  fieldId : Nat
  operativo : String
  area : String
  codItem : String
  rutaRecorte : Option String
deriving DecidableEq, Repr

/-- One `Codificacion` row as seen by the crop-pipeline join. -/
structure CodificacionRow where
  id : Nat
  ruta : String
  codigoExamen : Option String
  numeroPagina : Option Nat
deriving DecidableEq, Repr

/-- One `Tbl_Fields` row: field geometry in inches. -/
structure TblFieldRow where
  id : Nat
  cordX : ℚ
  cordY : ℚ
  cordWidth : ℚ
  cordHeight : ℚ
deriving DecidableEq, Repr

/-- The column projection of the crop-job query: one output row from one
matching `(l, c, f)` triple. -/
def joinRecord (l : ListadoRow) (c : CodificacionRow) (f : TblFieldRow) : CropRecord :=
  { prefijo := l.prefijo
    cod_barra := l.cod_barra
    nombreArchivo := l.nombreArchivo
    numeroPagina := l.numeroPagina
    fieldId := l.fieldId
    operativo := l.operativo
    area := l.area
    codItem := l.codItem
    ruta := c.ruta
    cordX := f.cordX
    cordY := f.cordY
    cordWidth := f.cordWidth
    cordHeight := f.cordHeight
    codificacionId := c.id }

/-- `SELECT DISTINCT` keeping the first occurrence of each row. -/
def dedupFirst {α : Type} [BEq α] : List α → List α
  | [] => []
  | a :: l => a :: (dedupFirst l).filter (fun b => !(b == a))

/-- The `ORDER BY c.Id, l.cod_barra` comparison on joined crop jobs. -/
def cropJobLe (a b : CropRecord) : Bool :=
  decide (a.codificacionId < b.codificacionId)
    || ((a.codificacionId == b.codificacionId) && decide (a.cod_barra ≤ b.cod_barra))

/-- `get_records_to_process`: the three-way inner join of pending listado
rows (`RutaRecorte IS NULL`) with `Codificacion` (on exam code and page
number) and `Tbl_Fields` (on field id), deduplicated (`DISTINCT`) and sorted
(`ORDER BY c.Id, l.cod_barra`). -/
def get_records_to_process (listado : List ListadoRow) (cod : List CodificacionRow)
    (fields : List TblFieldRow) : List CropRecord :=
  let joined :=
    (listado.filter (fun l => l.rutaRecorte.isNone)).flatMap (fun l =>
      (cod.filter (fun c =>
          c.codigoExamen == some l.cod_barra && c.numeroPagina == some l.numeroPagina)).flatMap
        (fun c =>
          (fields.filter (fun f => f.id == l.fieldId)).map (fun f => joinRecord l c f)))
  insertionSort cropJobLe (dedupFirst joined)

/-- The `(cod_barra, NumeroPagina, Field_id)` key the per-record
`UPDATE ListadoMuestraCodificacion SET RutaRecorte = ?` is keyed by. -/
def listadoKey (l : ListadoRow) : String × Nat × Nat := (l.cod_barra, l.numeroPagina, l.fieldId)

/-- The same key read off a selected crop job. -/
def recordKey (r : CropRecord) : String × Nat × Nat := (r.cod_barra, r.numeroPagina, r.fieldId)

/-- The error message `process_image` logs and quarantines with when a field
fails. -/
def errNote (r : CropRecord) : String := "Error procesando imagen " ++ r.ruta

/-- Counters and quarantine artifacts accumulated by `process_all`. -/
structure BatchResult where
  total : Nat
  processed : Nat
  errors : Nat
  skipped : Nat
  quarantined : List (String × String)
deriving DecidableEq, Repr

/-- The `for record in records` loop of `process_all`: a successful
`process_image` increments `processed`; a failing one (any raised step) has
already copied the original source image with an error note into the
quarantine directory, and the driver catches the exception, increments
`errors` and continues with the next record.  The `Bool` of each job is the
outcome of that record's I/O (decode, write, verify, persist). -/
def processAllGo (acc : BatchResult) : List (CropRecord × Bool) → BatchResult
  | [] => acc
  | j :: js =>
    processAllGo
      (if j.2 then { acc with processed := acc.processed + 1 }
       else { acc with errors := acc.errors + 1,
                       quarantined := acc.quarantined ++ [(j.1.ruta, errNote j.1)] })
      js

/-- `process_all`: run the loop over all pending records starting from zeroed
counters; `total` is the number of loaded records. -/
def process_all (jobs : List (CropRecord × Bool)) : BatchResult :=
  processAllGo
    { total := jobs.length, processed := 0, errors := 0, skipped := 0, quarantined := [] }
    jobs

/-! Concrete inputs used in counterexamples and witnesses. -/

/-- A one-group, one-file batch whose single file carries barcode `B1`. -/
def demoFile : FileRec := { id := 7, ruta := "d\\x", barcode := some "B1" }

/-- The groups structure holding just `demoFile`. -/
def demoGroups : List (String × List FileRec) := [("d", [demoFile])]

/-- The tuple the engine produces for `demoFile`. -/
def demoTuple : UpdateTuple :=
  { numeroPagina := 1, codigoExamen := some "B1", prefijo := some "B1", id := 7 }

/-- A group whose first file carries a barcode and whose second does not. -/
def c6Files : List FileRec :=
  [{ id := 1, ruta := "d\\a", barcode := some "B1" },
   { id := 2, ruta := "d\\b", barcode := none }]

/-- Two path-sorted rows in one directory: the first has no barcode, the
second does — the mid-group barcode resets the page counter. -/
def c6CexRows : List FileRec :=
  [{ id := 1, ruta := "d\\a", barcode := none },
   { id := 2, ruta := "d\\b", barcode := some "B1" }]

/-- Rows interleaving two directories (`a`, `b`, then `a` again). -/
def c10Rows : List FileRec :=
  [{ id := 1, ruta := "a\\f1", barcode := some "B1" },
   { id := 2, ruta := "b\\f2", barcode := none },
   { id := 3, ruta := "a\\f3", barcode := none }]

/-- A crop record with no interesting naming data and the given geometry. -/
def mkGeomRecord (x y w h : ℚ) : CropRecord :=
  { prefijo := none, cod_barra := "", nombreArchivo := "", numeroPagina := 0,
    fieldId := 0, operativo := "", area := "", codItem := "", ruta := "",
    cordX := x, cordY := y, cordWidth := w, cordHeight := h, codificacionId := 0 }

/-- The spec's round-trip example field: width 2.0 in, height 1.0 in,
centre (3.0, 1.5) in. -/
def exampleRec : CropRecord := mkGeomRecord 3 (3/2) 2 1

/-- A field whose width in pixels is fractional: 1.375 in at 2 DPI gives
2.75 px, where truncation (2) and rounding (3) differ.  All values are
exactly representable binary floats. -/
def c1Rec : CropRecord := mkGeomRecord 3 (3/2) (11/8) 1

/-- A field whose converted pixel rectangle starts left of the image:
at 2 DPI it converts to width 5, height 3, x = −2, y = 0. -/
def c2Rec : CropRecord := mkGeomRecord (1/4) (3/4) (5/2) (3/2)

/-- A 4×6 image of distinct pixel values. -/
def c2Img : List (List Nat) :=
  [[0, 1, 2, 3, 4, 5],
   [10, 11, 12, 13, 14, 15],
   [20, 21, 22, 23, 24, 25],
   [30, 31, 32, 33, 34, 35]]

/-- A 3×3 image used for the in-bounds/overflow witness. -/
def c2ImgSmall : List (List Nat) :=
  [[0, 1, 2], [10, 11, 12], [20, 21, 22]]

/-- A pending listado row (no crop produced yet). -/
def demoPending : ListadoRow :=
  { prefijo := some "B1", cod_barra := "B1", nombreArchivo := "r.tif",
    numeroPagina := 1, fieldId := 10, operativo := "OP", area := "A",
    codItem := "IT", rutaRecorte := none }

/-- A completed listado row: its `RutaRecorte` is already set. -/
def demoDone : ListadoRow :=
  { prefijo := some "B2", cod_barra := "B2", nombreArchivo := "s.tif",
    numeroPagina := 1, fieldId := 11, operativo := "OP", area := "A",
    codItem := "IT", rutaRecorte := some "D:\\out\\x.tif" }

/-- The listado table holding one pending and one completed row. -/
def demoListado : List ListadoRow := [demoPending, demoDone]

/-- A `Codificacion` row matching `demoPending` (exam code `B1`, page 1). -/
def demoCodRow : CodificacionRow :=
  { id := 1, ruta := "D:\\scan\\p1.tif", codigoExamen := some "B1", numeroPagina := some 1 }

/-- The codificacion table for the demo store. -/
def demoCod : List CodificacionRow := [demoCodRow]

/-- The geometry row for field 10. -/
def demoFieldRow : TblFieldRow := { id := 10, cordX := 1, cordY := 1, cordWidth := 2, cordHeight := 1 }

/-- The fields table for the demo store. -/
def demoFields : List TblFieldRow := [demoFieldRow]

/-- The crop job the demo store yields. -/
def demoCropRec : CropRecord := joinRecord demoPending demoCodRow demoFieldRow

/-- A ten-field batch in which exactly one field fails. -/
def demoJobs : List (CropRecord × Bool) :=
  List.replicate 9 (exampleRec, true) ++ [(c2Rec, false)]

/-! Structural lemmas relating the state-threading loops to the reference
functions. -/

theorem processFiles_updates (files : List FileRec) :
    ∀ st page, (processFiles st page files).updates
      = st.updates ++ tuplesAux st.currentBarcode page files := by
  induction files with
  | nil => intro st page; simp [processFiles, tuplesAux]
  | cons f fs ih =>
    intro st page
    cases hb : fileHasBarcode f <;>
      simp [processFiles, tuplesAux, hb, ih]

theorem processFiles_totalDocuments (files : List FileRec) :
    ∀ st page, (processFiles st page files).totalDocuments
      = st.totalDocuments + (files.filter (fun f => fileHasBarcode f)).length := by
  induction files with
  | nil => intro st page; simp [processFiles]
  | cons f fs ih =>
    intro st page
    cases hb : fileHasBarcode f <;>
      simp [processFiles, hb, ih] <;> omega

theorem processFiles_currentBarcode (files : List FileRec) :
    ∀ st page, (processFiles st page files).currentBarcode
      = lastBarcodeList st.currentBarcode files := by
  induction files with
  | nil => intro st page; simp [processFiles, lastBarcodeList]
  | cons f fs ih =>
    intro st page
    cases hb : fileHasBarcode f <;>
      simp [processFiles, lastBarcodeList, List.foldl_cons, hb, ih]

theorem processGroups_updates (gs : List (String × List FileRec)) :
    ∀ st, (processGroups st gs).updates = st.updates ++ tuplesOfGroups st.currentBarcode gs := by
  induction gs with
  | nil => intro st; simp [processGroups, tuplesOfGroups]
  | cons g gs ih =>
    intro st
    simp [processGroups, tuplesOfGroups, ih, processFiles_updates,
      processFiles_currentBarcode]

theorem processGroups_totalDocuments (gs : List (String × List FileRec)) :
    ∀ st, (processGroups st gs).totalDocuments
      = st.totalDocuments + ((flatFiles gs).filter (fun f => fileHasBarcode f)).length := by
  induction gs with
  | nil => intro st; simp [processGroups, flatFiles]
  | cons g gs ih =>
    intro st
    simp [processGroups, flatFiles, ih, processFiles_totalDocuments, List.flatMap_cons]
    omega

theorem processGroups_currentBarcode (gs : List (String × List FileRec)) :
    ∀ st, (processGroups st gs).currentBarcode
      = lastBarcodeList st.currentBarcode (flatFiles gs) := by
  induction gs with
  | nil => intro st; simp [processGroups, flatFiles, lastBarcodeList]
  | cons g gs ih =>
    intro st
    simp [processGroups, flatFiles, ih, processFiles_currentBarcode, List.flatMap_cons,
      lastBarcodeList, List.foldl_append]

theorem update_records_fst (groups : List (String × List FileRec)) :
    (update_records groups).1 = tuplesOfGroups none groups := by
  simp [update_records, processGroups_updates]

theorem update_records_snd (groups : List (String × List FileRec)) :
    (update_records groups).2 = ((flatFiles groups).filter (fun f => fileHasBarcode f)).length := by
  simp [update_records, processGroups_totalDocuments]

theorem tuplesAux_length (files : List FileRec) :
    ∀ cb page, (tuplesAux cb page files).length = files.length := by
  induction files with
  | nil => intro cb page; simp [tuplesAux]
  | cons f fs ih => intro cb page; simp [tuplesAux, ih]

theorem tuplesOfGroups_length (gs : List (String × List FileRec)) :
    ∀ cb, (tuplesOfGroups cb gs).length = (flatFiles gs).length := by
  induction gs with
  | nil => intro cb; simp [tuplesOfGroups, flatFiles]
  | cons g gs ih =>
    intro cb
    simp [tuplesOfGroups, flatFiles, List.flatMap_cons, tuplesAux_length, ih]

theorem zip_tuplesAux_page (files : List FileRec) :
    ∀ cb page, ∀ pr ∈ files.zip (tuplesAux cb page files),
      fileHasBarcode pr.1 = true → pr.2.numeroPagina = 1 := by
  induction files with
  | nil => intro cb page pr h; simp [tuplesAux] at h
  | cons f fs ih =>
    intro cb page pr h hb
    simp only [tuplesAux, List.zip_cons_cons, List.mem_cons] at h
    rcases h with h | h
    · subst h; simp_all
    · exact ih _ _ pr h hb

theorem zip_tuplesOfGroups_page (gs : List (String × List FileRec)) :
    ∀ cb, ∀ pr ∈ (flatFiles gs).zip (tuplesOfGroups cb gs),
      fileHasBarcode pr.1 = true → pr.2.numeroPagina = 1 := by
  induction gs with
  | nil => intro cb pr h; simp [tuplesOfGroups, flatFiles] at h
  | cons g gs ih =>
    intro cb pr h hb
    have hz : (flatFiles (g :: gs)).zip (tuplesOfGroups cb (g :: gs))
        = g.2.zip (tuplesAux cb 1 g.2)
          ++ (flatFiles gs).zip (tuplesOfGroups (lastBarcodeList cb g.2) gs) := by
      simp only [flatFiles, List.flatMap_cons, tuplesOfGroups]
      exact List.zip_append (by simp [tuplesAux_length])
    rw [hz] at h
    rcases List.mem_append.mp h with h | h
    · exact zip_tuplesAux_page g.2 cb 1 pr h hb
    · exact ih _ pr h hb

theorem tuplesAux_codigo (files : List FileRec) :
    ∀ cb page i (h : i < files.length),
      ((tuplesAux cb page files).get ⟨i, by rw [tuplesAux_length]; exact h⟩).codigoExamen
        = optTruthy (lastBarcodeList cb (files.take (i + 1))) := by
  induction files with
  | nil => intro cb page i h; simp at h
  | cons f fs ih =>
    intro cb page i h
    match i with
    | 0 =>
      simp [tuplesAux, lastBarcodeList, List.take_succ_cons]
    | Nat.succ j =>
      have hj : j < fs.length := by simpa using h
      have := ih (if fileHasBarcode f then f.barcode else cb)
        ((if fileHasBarcode f then 1 else page) + 1) j hj
      simp only [tuplesAux, List.get_cons_succ]
      rw [this]
      simp [lastBarcodeList, List.take_succ_cons]

theorem lastBarcodeList_append (cb : Option String) (l₁ l₂ : List FileRec) :
    lastBarcodeList cb (l₁ ++ l₂) = lastBarcodeList (lastBarcodeList cb l₁) l₂ := by
  simp [lastBarcodeList, List.foldl_append]

theorem tuplesOfGroups_codigo (gs : List (String × List FileRec)) :
    ∀ cb i (h : i < (flatFiles gs).length),
      ((tuplesOfGroups cb gs).get ⟨i, by rw [tuplesOfGroups_length]; exact h⟩).codigoExamen
        = optTruthy (lastBarcodeList cb ((flatFiles gs).take (i + 1))) := by
  induction gs with
  | nil => intro cb i h; simp [flatFiles] at h
  | cons g gs ih =>
    intro cb i h
    have hflat : flatFiles (g :: gs) = g.2 ++ flatFiles gs := by
      simp [flatFiles, List.flatMap_cons]
    have hlen₁ : (tuplesAux cb 1 g.2).length = g.2.length := tuplesAux_length _ _ _
    by_cases hi : i < g.2.length
    · have hgl : i < (tuplesAux cb 1 g.2).length := by rw [hlen₁]; exact hi
      have hget : (tuplesOfGroups cb (g :: gs)).get
            ⟨i, by rw [tuplesOfGroups_length]; exact h⟩
          = (tuplesAux cb 1 g.2).get ⟨i, hgl⟩ := by
        simp only [tuplesOfGroups, List.get_eq_getElem]
        exact List.getElem_append_left hgl
      rw [hget, tuplesAux_codigo g.2 cb 1 i hi]
      congr 2
      rw [hflat, List.take_append_eq_append_take,
        Nat.sub_eq_zero_of_le (by omega), List.take_zero, List.append_nil]
    · have hi' : g.2.length ≤ i := Nat.le_of_not_lt hi
      have hrest : i - g.2.length < (flatFiles gs).length := by
        rw [hflat] at h; simp only [List.length_append] at h; omega
      have hget : (tuplesOfGroups cb (g :: gs)).get
            ⟨i, by rw [tuplesOfGroups_length]; exact h⟩
          = (tuplesOfGroups (lastBarcodeList cb g.2) gs).get
            ⟨i - g.2.length, by rw [tuplesOfGroups_length]; exact hrest⟩ := by
        simp only [tuplesOfGroups, List.get_eq_getElem]
        rw [List.getElem_append_right (by omega)]
        congr 1
        omega
      have htake : (flatFiles (g :: gs)).take (i + 1)
          = g.2 ++ (flatFiles gs).take (i - g.2.length + 1) := by
        rw [hflat, List.take_append_eq_append_take,
          List.take_of_length_le (Nat.le_trans hi' (Nat.le_succ i))]
        have hsub : i + 1 - g.2.length = i - g.2.length + 1 := by omega
        rw [hsub]
      rw [hget, ih (lastBarcodeList cb g.2) (i - g.2.length) hrest, htake,
        lastBarcodeList_append]

theorem lastBarcodeList_eq_find (l : List FileRec) :
    ∀ cb, lastBarcodeList cb l
      = ((l.reverse.find? (fun f => fileHasBarcode f)).elim cb (fun f => f.barcode)) := by
  induction l with
  | nil => intro cb; simp [lastBarcodeList]
  | cons f fs ih =>
    intro cb
    have hstep : lastBarcodeList cb (f :: fs)
        = lastBarcodeList (if fileHasBarcode f then f.barcode else cb) fs := by
      simp [lastBarcodeList]
    rw [hstep, ih]
    simp only [List.reverse_cons, List.find?_append]
    cases hfind : fs.reverse.find? (fun f => fileHasBarcode f) with
    | some g => simp [hfind, Option.or]
    | none =>
      cases hb : fileHasBarcode f <;>
        simp [hfind, Option.or, List.find?, hb]

theorem prefixOf_optTruthy (b : Option String) :
    prefixOf (optTruthy b) = (optTruthy b).map (fun s => s.take 3) := by
  cases b with
  | none => rfl
  | some s =>
    by_cases h : s == "" <;> simp [optTruthy, prefixOf, h]

theorem tuplesAux_prefijo (files : List FileRec) :
    ∀ cb page, ∀ t ∈ tuplesAux cb page files,
      t.prefijo = t.codigoExamen.map (fun s => s.take 3) := by
  induction files with
  | nil => intro cb page t h; simp [tuplesAux] at h
  | cons f fs ih =>
    intro cb page t h
    simp only [tuplesAux, List.mem_cons] at h
    rcases h with h | h
    · subst h
      exact prefixOf_optTruthy _
    · exact ih _ _ t h

theorem tuplesOfGroups_prefijo (gs : List (String × List FileRec)) :
    ∀ cb, ∀ t ∈ tuplesOfGroups cb gs,
      t.prefijo = t.codigoExamen.map (fun s => s.take 3) := by
  induction gs with
  | nil => intro cb t h; simp [tuplesOfGroups] at h
  | cons g gs ih =>
    intro cb t h
    rcases List.mem_append.mp h with h | h
    · exact tuplesAux_prefijo g.2 cb 1 t h
    · exact ih _ t h

theorem optTruthy_lastBarcodeList (l : List FileRec) (i : Nat) :
    optTruthy (lastBarcodeList none (l.take (i + 1))) = lastSeenBarcode l i := by
  rw [lastBarcodeList_eq_find]
  cases hfind : (l.take (i + 1)).reverse.find? (fun f => fileHasBarcode f) with
  | none => simp [lastSeenBarcode, hfind, optTruthy]
  | some g =>
    have hg : fileHasBarcode g = true := List.find?_some hfind
    simp only [lastSeenBarcode, hfind, Option.elim, Option.bind]
    cases hbc : g.barcode with
    | none => simp [fileHasBarcode, truthyStr, hbc] at hg
    | some s =>
      have hs : (s == "") = false := by
        simpa [fileHasBarcode, truthyStr, hbc] using hg
      simp [optTruthy, hs]

theorem tuplesAux_pages (files : List FileRec) :
    ∀ cb page, (tuplesAux cb page files).map (fun t => t.numeroPagina) = pagesAux page files := by
  induction files with
  | nil => intro cb page; simp [tuplesAux, pagesAux]
  | cons f fs ih => intro cb page; simp [tuplesAux, pagesAux, ih]

theorem pagesAux_no_barcode (files : List FileRec) :
    (∀ f ∈ files, fileHasBarcode f = false) →
      ∀ page, pagesAux page files = List.range' page files.length := by
  induction files with
  | nil => intro _ page; simp [pagesAux]
  | cons f fs ih =>
    intro h page
    have hf : fileHasBarcode f = false := h f (by simp)
    have hfs : ∀ g ∈ fs, fileHasBarcode g = false := fun g hg => h g (by simp [hg])
    simp [pagesAux, hf, ih hfs, List.range'_succ]

theorem tuplesOfGroups_append (gs1 gs2 : List (String × List FileRec)) :
    ∀ cb, tuplesOfGroups cb (gs1 ++ gs2)
      = tuplesOfGroups cb gs1 ++ tuplesOfGroups (lastBarcodeList cb (flatFiles gs1)) gs2 := by
  induction gs1 with
  | nil => intro cb; simp [tuplesOfGroups, flatFiles, lastBarcodeList]
  | cons g gs ih =>
    intro cb
    simp [tuplesOfGroups, flatFiles, List.flatMap_cons, ih, lastBarcodeList_append]

theorem processAllGo_processed (js : List (CropRecord × Bool)) :
    ∀ acc, (processAllGo acc js).processed
      = acc.processed + (js.filter (fun j => j.2)).length := by
  induction js with
  | nil => intro acc; simp [processAllGo]
  | cons j js ih =>
    intro acc
    cases hj : j.2 <;> simp [processAllGo, hj, ih] <;> omega

theorem processAllGo_errors (js : List (CropRecord × Bool)) :
    ∀ acc, (processAllGo acc js).errors
      = acc.errors + (js.filter (fun j => !j.2)).length := by
  induction js with
  | nil => intro acc; simp [processAllGo]
  | cons j js ih =>
    intro acc
    cases hj : j.2 <;> simp [processAllGo, hj, ih] <;> omega

theorem processAllGo_quarantined (js : List (CropRecord × Bool)) :
    ∀ acc, (processAllGo acc js).quarantined
      = acc.quarantined
        ++ (js.filter (fun j => !j.2)).map (fun j => (j.1.ruta, errNote j.1)) := by
  induction js with
  | nil => intro acc; simp [processAllGo]
  | cons j js ih =>
    intro acc
    cases hj : j.2 <;> simp [processAllGo, hj, ih]

theorem processAllGo_total (js : List (CropRecord × Bool)) :
    ∀ acc, (processAllGo acc js).total = acc.total := by
  induction js with
  | nil => intro acc; simp [processAllGo]
  | cons j js ih =>
    intro acc
    cases hj : j.2 <;> simp [processAllGo, hj, ih]

theorem processAllGo_skipped (js : List (CropRecord × Bool)) :
    ∀ acc, (processAllGo acc js).skipped = acc.skipped := by
  induction js with
  | nil => intro acc; simp [processAllGo]
  | cons j js ih =>
    intro acc
    cases hj : j.2 <;> simp [processAllGo, hj, ih]

theorem pySlice_nonneg {α : Type} (l : List α) (start stop : Int)
    (hs : 0 ≤ start) (he : 0 ≤ stop) :
    pySlice l start stop
      = (l.take (min stop (l.length : Int)).toNat).drop (max start 0).toNat := by
  simp only [pySlice, pySliceIdx]
  rw [if_neg (by omega), if_neg (by omega)]
  have hmax : max start 0 = start := by omega
  rw [hmax]
  by_cases hsn : start ≤ (l.length : Int)
  · have hmin : min start (l.length : Int) = start := by omega
    rw [hmin]
  · have hmin : min start (l.length : Int) = (l.length : Int) := by omega
    rw [hmin]
    have hlen : (l.take (min stop (l.length : Int)).toNat).length ≤ l.length := by
      simp [List.length_take]
    rw [List.drop_eq_nil_of_le (by omega), List.drop_eq_nil_of_le (by omega)]

theorem mem_insertOrd {α : Type} (le : α → α → Bool) (a x : α) :
    ∀ l : List α, x ∈ insertOrd le a l → x = a ∨ x ∈ l := by
  intro l
  induction l with
  | nil => intro h; simpa [insertOrd] using h
  | cons b l ih =>
    intro h
    by_cases hle : le a b = true
    · rw [insertOrd, if_pos hle] at h
      rcases List.mem_cons.mp h with h | h
      · exact Or.inl h
      · exact Or.inr h
    · rw [insertOrd, if_neg hle] at h
      rcases List.mem_cons.mp h with h | h
      · exact Or.inr (List.mem_cons.mpr (Or.inl h))
      · rcases ih h with h | h
        · exact Or.inl h
        · exact Or.inr (List.mem_cons.mpr (Or.inr h))

theorem mem_insertionSort {α : Type} (le : α → α → Bool) (x : α) :
    ∀ l : List α, x ∈ insertionSort le l → x ∈ l := by
  intro l
  induction l with
  | nil => intro h; simpa [insertionSort] using h
  | cons a l ih =>
    intro h
    rcases mem_insertOrd le a x _ h with h | h
    · simp [h]
    · simp [ih h]

theorem mem_dedupFirst {α : Type} [BEq α] (x : α) :
    ∀ l : List α, x ∈ dedupFirst l → x ∈ l := by
  intro l
  induction l with
  | nil => intro h; simpa [dedupFirst] using h
  | cons a l ih =>
    intro h
    simp only [dedupFirst, List.mem_cons] at h
    rcases h with h | h
    · simp [h]
    · exact List.mem_cons_of_mem _ (ih (List.mem_filter.mp h).1)

theorem keys_insertGroup (d : String) (f : FileRec) :
    ∀ gs : List (String × List FileRec),
      (insertGroup gs d f).map (fun g => g.1)
        = if d ∈ gs.map (fun g => g.1) then gs.map (fun g => g.1)
          else gs.map (fun g => g.1) ++ [d] := by
  intro gs
  induction gs with
  | nil => simp [insertGroup]
  | cons g gs ih =>
    by_cases hgd : g.1 = d
    · have hbe : (g.1 == d) = true := by simpa using hgd
      simp [insertGroup, hbe, hgd]
    · have hbe : (g.1 == d) = false := by simpa using hgd
      have hne : ¬(d = g.1) := fun h => hgd h.symm
      by_cases hmem : d ∈ gs.map (fun g => g.1)
      · simp [insertGroup, hbe, ih, hmem, hne]
      · simp [insertGroup, hbe, ih, hmem, hne]

theorem keys_foldl (rows : List FileRec) :
    ∀ acc : List (String × List FileRec),
      ((rows.foldl (fun gs r => insertGroup gs (dirName r.ruta) r) acc).map (fun g => g.1))
        = keysFold (acc.map (fun g => g.1)) (rows.map (fun r => dirName r.ruta)) := by
  induction rows with
  | nil => intro acc; simp [keysFold]
  | cons r rows ih =>
    intro acc
    simp only [List.foldl_cons, List.map_cons, keysFold]
    rw [ih, keys_insertGroup]

theorem keysFold_firstAppearance (ds : List String) :
    ∀ ks, keysFold ks ds
      = ks ++ (firstAppearance ds).filter (fun x => !(decide (x ∈ ks))) := by
  induction ds with
  | nil => intro ks; simp [keysFold, firstAppearance]
  | cons d ds ih =>
    intro ks
    simp only [keysFold, firstAppearance]
    rw [ih]
    by_cases hd : d ∈ ks
    · rw [if_pos hd, List.filter_cons_of_neg (by simp [hd]), List.filter_filter]
      apply congrArg
      apply List.filter_congr
      intro x hx
      by_cases hxk : x ∈ ks
      · simp [hxk]
      · have hxd : (x == d) = false := by
          refine beq_eq_false_iff_ne.mpr ?_
          intro hxd; exact hxk (hxd ▸ hd)
        simp [hxk, hxd]
    · rw [if_neg hd, List.filter_cons_of_pos (by simp [hd]), List.filter_filter,
        List.append_assoc]
      apply congrArg
      simp only [List.singleton_append]
      apply congrArg
      apply List.filter_congr
      intro x hx
      by_cases hxk : x ∈ ks <;> by_cases hxd : x = d <;>
        simp [List.mem_append, hxk, hxd]

theorem get_file_groups_keys (rows : List FileRec) :
    (get_file_groups rows).map (fun g => g.1)
      = firstAppearance (rows.map (fun f => dirName f.ruta)) := by
  have h1 : (get_file_groups rows).map (fun g => g.1)
      = ((rows.foldl (fun gs r => insertGroup gs (dirName r.ruta) r) []).map (fun g => g.1)) := by
    simp [get_file_groups, List.map_map, Function.comp]
  rw [h1, keys_foldl rows [], keysFold_firstAppearance]
  simp only [List.map_nil, List.nil_append]
  refine List.filter_eq_self.mpr ?_
  intro a _
  simp

theorem filter_bool_length_add (l : List (CropRecord × Bool)) :
    (l.filter (fun j => j.2)).length + (l.filter (fun j => !j.2)).length = l.length := by
  induction l with
  | nil => simp
  | cons j js ih =>
    cases hj : j.2 <;> simp [hj] <;> omega

/-- Claim C1 (counterexample): the geometry conversion does not round.  For a
field of width 1.375 in at 2 DPI the code computes `int(2.75) = 2` pixels
while the claimed formula gives `round(2.75) = 3`; the x coordinate likewise
truncates 4.625 to 4 while rounding gives 5. -/
theorem C1_counterexample :
    convertGeometry c1Rec 2 2 = Except.ok (2, 2, 4, 2) ∧
    roundGeometry c1Rec 2 2 = (3, 2, 5, 2) ∧
    (2, 2, 4, 2) ≠ roundGeometry c1Rec 2 2 := by
  have h1 : convertGeometry c1Rec 2 2 = Except.ok (2, 2, 4, 2) := by
    simp only [convertGeometry, c1Rec, mkGeomRecord, inches_to_pixels, pyInt, bind, Except.bind,
      pure, Except.pure]
    norm_num
  have h2 : roundGeometry c1Rec 2 2 = (3, 2, 5, 2) := by
    simp only [roundGeometry, c1Rec, mkGeomRecord]
    norm_num [round_eq]
  exact ⟨h1, h2, by rw [h2]; decide⟩

/-- Claim C1 (amended): for every crop field the geometry conversion computes
`pixelWidth = int(widthInches * dpiX)`, `pixelHeight = int(heightInches * dpiY)`,
`pixelX = int((xInches - widthInches/2) * dpiX)` and
`pixelY = int((yInches - heightInches/2) * dpiY)`, where `int` truncates
toward zero (not `round`); on the spec's concrete example — width 2.0 in,
height 1.0 in, centre (3.0, 1.5) in, DPI (300, 300) — all four products are
exact integers, so the results are the claimed 600, 300, 600, 300. -/
theorem C1_geometry_truncation (r : CropRecord) (dpiX dpiY : Int) :
    convertGeometry r dpiX dpiY
      = Except.ok (pyInt (r.cordWidth * dpiX), pyInt (r.cordHeight * dpiY),
          pyInt ((r.cordX - r.cordWidth / 2) * dpiX),
          pyInt ((r.cordY - r.cordHeight / 2) * dpiY)) ∧
    convertGeometry exampleRec 300 300 = Except.ok (600, 300, 600, 300) := by
  constructor
  · rfl
  · simp only [convertGeometry, exampleRec, mkGeomRecord, inches_to_pixels, pyInt, bind,
      Except.bind, pure, Except.pure]
    norm_num

/-- Claim C2 (counterexample): a crop rectangle with negative `pixelX` is not
clipped to the image.  The field `c2Rec` at 2 DPI converts to width 5,
height 3, x = −2, y = 0; on the 4×6 image the slice `img[0:3, -2:3]` wraps
the negative start around the row end and yields three empty rows, not the
three-column intersection. -/
theorem C2_counterexample :
    convertGeometry c2Rec 2 2 = Except.ok (5, 3, -2, 0) ∧
    cropImage c2Img (-2) 0 5 3 = [[], [], []] ∧
    cropImage c2Img (-2) 0 5 3 ≠ rectIntersect c2Img (-2) 0 5 3 := by
  refine ⟨?_, by decide, by decide⟩
  simp only [convertGeometry, c2Rec, mkGeomRecord, inches_to_pixels, pyInt, bind, Except.bind,
    pure, Except.pure]
  norm_num

/-- Claim C2 (amended): the crop step never raises — array slicing is total —
and whenever the computed pixel origin is nonnegative (and the pixel
dimensions are nonnegative) the crop equals the intersection of the requested
rectangle with the image: the out-of-bounds part beyond the right or bottom
edge is silently truncated.  A negative `pixelX` or `pixelY`, however, wraps
around the end of the axis under Python slice semantics instead of being
clipped to the image. -/
theorem C2_crop_truncates_in_bounds {α : Type} (img : List (List α)) (x y w h : Int)
    (hx : 0 ≤ x) (hy : 0 ≤ y) (hw : 0 ≤ w) (hh : 0 ≤ h) :
    cropImage img x y w h = rectIntersect img x y w h := by
  unfold cropImage rectIntersect
  rw [pySlice_nonneg img y (y + h) hy (by omega)]
  apply List.map_congr_left
  intro row _
  exact pySlice_nonneg row x (x + w) hx (by omega)

/-- Claim C2 (witness): on a 3×3 image a 5×5 request at origin (1,1) is
truncated to the in-bounds 2×2 block. -/
theorem C2_witness :
    cropImage c2ImgSmall 1 1 5 5 = rectIntersect c2ImgSmall 1 1 5 5 :=
  C2_crop_truncates_in_bounds c2ImgSmall 1 1 5 5 (by decide) (by decide) (by decide) (by decide)

/-- Claim C3: the parameter list passed to the primary encoder sets the TIFF
resolution unit to inches and the X/Y DPI to the resolved values, but its
compression parameter is 5 — the TIFF tag value for LZW compression — not 1
(uncompressed), although the source comments the line with `Sin compresión`
and the spec says the output is an uncompressed TIFF. -/
theorem C3_tiff_write_params (dpiX dpiY : Int) :
    lookupParam IMWRITE_TIFF_COMPRESSION (tiffWriteParams dpiX dpiY)
      = some TIFF_COMPRESSION_LZW ∧
    TIFF_COMPRESSION_LZW ≠ TIFF_COMPRESSION_NONE ∧
    lookupParam IMWRITE_TIFF_RESUNIT (tiffWriteParams dpiX dpiY) = some TIFF_RESUNIT_INCH ∧
    lookupParam IMWRITE_TIFF_XDPI (tiffWriteParams dpiX dpiY) = some dpiX ∧
    lookupParam IMWRITE_TIFF_YDPI (tiffWriteParams dpiX dpiY) = some dpiY :=
  ⟨rfl, by decide, rfl, rfl, rfl⟩

/-- Claim C4: the pagination bulk update is atomic.  On a write failure the
batch is rolled back (no tuple committed) and the function returns `(0, 0)`;
on success it commits every tuple and returns the number of update tuples and
the count of barcode occurrences, and one tuple is built per file. -/
theorem C4_bulk_update_atomic (groups : List (String × List FileRec)) :
    update_records_run groups false = ([], 0, 0) ∧
    update_records_run groups true
      = ((update_records groups).1, (update_records groups).1.length,
          ((flatFiles groups).filter (fun f => fileHasBarcode f)).length) ∧
    (update_records groups).1.length = (flatFiles groups).length := by
  refine ⟨rfl, ?_, ?_⟩
  · simp [update_records_run, update_records_snd]
  · rw [update_records_fst, tuplesOfGroups_length]

/-- Claim C5: failures are isolated per field.  The batch driver processes
every record: `processed` counts the successful fields, `errors` counts the
failing ones, every failing field's original source image is copied to
quarantine paired with its error note, `processed + errors` covers the whole
batch (it never aborts), and on the spec's ten-field scenario with one
failure it reports processed 9, errors 1. -/
theorem C5_failure_isolation (jobs : List (CropRecord × Bool)) :
    (process_all jobs).processed = (jobs.filter (fun j => j.2)).length ∧
    (process_all jobs).errors = (jobs.filter (fun j => !j.2)).length ∧
    (process_all jobs).quarantined
      = (jobs.filter (fun j => !j.2)).map (fun j => (j.1.ruta, errNote j.1)) ∧
    (process_all jobs).processed + (process_all jobs).errors = jobs.length ∧
    (process_all jobs).total = jobs.length ∧
    process_all demoJobs = ⟨10, 9, 1, 0, [("", errNote c2Rec)]⟩ := by
  refine ⟨?_, ?_, ?_, ?_, ?_, by decide⟩
  · simp [process_all, processAllGo_processed]
  · simp [process_all, processAllGo_errors]
  · simp [process_all, processAllGo_quarantined]
  · rw [show (process_all jobs).processed = (jobs.filter (fun j => j.2)).length by
      simp [process_all, processAllGo_processed]]
    rw [show (process_all jobs).errors = (jobs.filter (fun j => !j.2)).length by
      simp [process_all, processAllGo_errors]]
    exact filter_bool_length_add jobs
  · simp [process_all, processAllGo_total]

/-- Claim C6 (counterexample): page numbers within a directory group are not
always contiguous without repeats.  For a group whose second (path-sorted)
file carries the barcode, the engine assigns pages [1, 1]: the mid-group
barcode resets the counter, so 1 repeats and [1, 2] is never produced. -/
theorem C6_counterexample :
    (update_records [("d", c6CexRows)]).1.map (fun t => t.numeroPagina) = [1, 1] ∧
    ¬ ((update_records [("d", c6CexRows)]).1.map (fun t => t.numeroPagina)
        = List.range' 1 c6CexRows.length) ∧
    ¬ ((update_records [("d", c6CexRows)]).1.map (fun t => t.numeroPagina)).Nodup :=
  ⟨by decide, by decide, by decide⟩

/-- Claim C6 (amended): within a directory group the page counter restarts at
1 at the group start and at every barcode occurrence; consequently, for every
group in which no file after the first carries a barcode, the page numbers
assigned to the group's files in sorted order are exactly the contiguous
sequence 1, 2, …, n with no gaps or repeats. -/
theorem C6_pages_contiguous (gs1 gs2 : List (String × List FileRec)) (d : String)
    (files : List FileRec)
    (h : ∀ f ∈ files.tail, fileHasBarcode f = false) :
    (((update_records (gs1 ++ (d, files) :: gs2)).1.drop
        ((flatFiles gs1).length)).take files.length).map (fun t => t.numeroPagina)
      = List.range' 1 files.length := by
  rw [update_records_fst, tuplesOfGroups_append]
  have h1 : (tuplesOfGroups none gs1).length = (flatFiles gs1).length :=
    tuplesOfGroups_length gs1 none
  rw [← h1, List.drop_left]
  rw [show tuplesOfGroups (lastBarcodeList none (flatFiles gs1)) ((d, files) :: gs2)
      = tuplesAux (lastBarcodeList none (flatFiles gs1)) 1 files
        ++ tuplesOfGroups
            (lastBarcodeList (lastBarcodeList none (flatFiles gs1)) files) gs2 from rfl]
  have h2 : (tuplesAux (lastBarcodeList none (flatFiles gs1)) 1 files).length = files.length :=
    tuplesAux_length files _ 1
  rw [List.take_append_eq_append_take, List.take_of_length_le (le_of_eq h2), h2, Nat.sub_self,
    List.take_zero, List.append_nil, tuplesAux_pages]
  cases files with
  | nil => simp [pagesAux]
  | cons f fs =>
    have hfs : ∀ g ∈ fs, fileHasBarcode g = false := by simpa using h
    have hp : pagesAux 2 fs = List.range' 2 fs.length := pagesAux_no_barcode fs hfs 2
    simp [pagesAux, hp, List.range'_succ]

/-- Claim C6 (witness): a two-file group whose only barcode is on the first
file gets pages [1, 2]. -/
theorem C6_pages_contiguous_witness :
    (((update_records (([] : List (String × List FileRec))
          ++ ("d", c6Files) :: ([] : List (String × List FileRec)))).1.drop
        ((flatFiles ([] : List (String × List FileRec))).length)).take
          c6Files.length).map (fun t => t.numeroPagina)
      = List.range' 1 c6Files.length :=
  C6_pages_contiguous [] [] "d" c6Files (by decide)

/-- Claim C7: every file carrying a (truthy) barcode is assigned page number
exactly 1, and the returned document count equals the number of barcoded
files in the whole run. -/
theorem C7_barcode_page_one (groups : List (String × List FileRec)) :
    (update_records groups).2
      = ((flatFiles groups).filter (fun f => fileHasBarcode f)).length ∧
    ∀ pr ∈ (flatFiles groups).zip (update_records groups).1,
      fileHasBarcode pr.1 = true → pr.2.numeroPagina = 1 := by
  refine ⟨update_records_snd groups, ?_⟩
  intro pr h hb
  rw [update_records_fst] at h
  exact zip_tuplesOfGroups_page groups none pr h hb

/-- Claim C7 (witness): the barcoded demo file is assigned page 1. -/
theorem C7_barcode_page_one_witness : demoTuple.numeroPagina = 1 :=
  (C7_barcode_page_one demoGroups).2 (demoFile, demoTuple) (by decide) (by decide)

/-- Claim C8: every written tuple's prefix is the first three characters of
its exam code when the exam code is set and unset when it is unset, and the
exam code assigned at each position of the flattened run is the most recently
seen barcode at or before that position — carried over across directory
groups. -/
theorem C8_prefix_and_carryover (groups : List (String × List FileRec)) :
    (∀ t ∈ (update_records groups).1,
        t.prefijo = t.codigoExamen.map (fun s => s.take 3)) ∧
    ∀ i (h1 : i < (update_records groups).1.length) (h2 : i < (flatFiles groups).length),
      ((update_records groups).1.get ⟨i, h1⟩).codigoExamen
        = lastSeenBarcode (flatFiles groups) i := by
  constructor
  · intro t ht
    rw [update_records_fst] at ht
    exact tuplesOfGroups_prefijo groups none t ht
  · intro i h1 h2
    have hlen : i < (tuplesOfGroups none groups).length := by
      rw [tuplesOfGroups_length]; exact h2
    have hget : (update_records groups).1.get ⟨i, h1⟩
        = (tuplesOfGroups none groups).get ⟨i, hlen⟩ := by
      simp only [List.get_eq_getElem]
      exact List.getElem_of_eq (update_records_fst groups) h1
    rw [hget]
    exact (tuplesOfGroups_codigo groups none i h2).trans
      (optTruthy_lastBarcodeList (flatFiles groups) i)

/-- Claim C8 (witness): the demo run's first tuple carries exam code `B1`,
the barcode of the first (and only) file. -/
theorem C8_prefix_and_carryover_witness :
    ((update_records demoGroups).1.get ⟨0, by decide⟩).codigoExamen
      = lastSeenBarcode (flatFiles demoGroups) 0 :=
  (C8_prefix_and_carryover demoGroups).2 0 (by decide) (by decide)

/-- Claim C9: the crop-job query filters on `RutaRecorte IS NULL`, so every
selected job stems from a pending listado row, and — when the per-field keys
are unique, as the data model requires — a row whose crop path is already set
is never selected, hence a re-run neither rewrites its path nor its output
file. -/
theorem C9_pending_filter (listado : List ListadoRow) (cod : List CodificacionRow)
    (fields : List TblFieldRow) :
    (∀ r ∈ get_records_to_process listado cod fields,
        ∃ l ∈ listado, l.rutaRecorte = none ∧ recordKey r = listadoKey l) ∧
    ∀ l ∈ listado, l.rutaRecorte.isSome = true →
      (listado.map listadoKey).Nodup →
      ∀ r ∈ get_records_to_process listado cod fields, recordKey r ≠ listadoKey l := by
  have hmain : ∀ r ∈ get_records_to_process listado cod fields,
      ∃ l ∈ listado, l.rutaRecorte = none ∧ recordKey r = listadoKey l := by
    intro r hr
    simp only [get_records_to_process] at hr
    have hr1 := mem_insertionSort _ _ _ hr
    have hr2 := mem_dedupFirst _ _ hr1
    rcases List.mem_flatMap.mp hr2 with ⟨l, hl, hrest⟩
    have hlmem := (List.mem_filter.mp hl).1
    have hlnone : l.rutaRecorte = none :=
      Option.isNone_iff_eq_none.mp (List.mem_filter.mp hl).2
    rcases List.mem_flatMap.mp hrest with ⟨c, _, hrr⟩
    rcases List.mem_map.mp hrr with ⟨f, _, hjoin⟩
    refine ⟨l, hlmem, hlnone, ?_⟩
    rw [← hjoin]
    rfl
  refine ⟨hmain, ?_⟩
  intro l hl hsome hnodup r hr hcontra
  rcases hmain r hr with ⟨l', hl', hnone, hkey⟩
  have hk : listadoKey l' = listadoKey l := by rw [← hkey, hcontra]
  have hll : l' = l := List.inj_on_of_nodup_map hnodup hl' hl hk
  exact Option.isSome_iff_ne_none.mp hsome (hll ▸ hnone)

/-- Claim C9 (witness): in the demo store the completed row `demoDone` is
never selected: the single selected job has a different key. -/
theorem C9_pending_filter_witness : recordKey demoCropRec ≠ listadoKey demoDone :=
  (C9_pending_filter demoListado demoCod demoFields).2 demoDone (by decide) (by decide)
    (by decide) demoCropRec (by decide)

/-- Claim C10: the pagination assignment is deterministic — equal row streams
give equal update tuples and counts — and the groups are iterated in order of
first appearance of their directory in the path-sorted row stream, because
the grouping dictionary preserves insertion order. -/
theorem C10_deterministic (r1 r2 : List FileRec) (h : r1 = r2) :
    runPagination r1 = runPagination r2 ∧
    (get_file_groups r1).map (fun g => g.1)
      = firstAppearance (r1.map (fun f => dirName f.ruta)) := by
  subst h
  exact ⟨rfl, get_file_groups_keys r1⟩

/-- Claim C10 (witness): two runs on the interleaved demo rows agree, and the
group keys come out in first-appearance order. -/
theorem C10_deterministic_witness :
    runPagination c10Rows = runPagination c10Rows ∧
    (get_file_groups c10Rows).map (fun g => g.1)
      = firstAppearance (c10Rows.map (fun f => dirName f.ruta)) :=
  C10_deterministic c10Rows c10Rows rfl
